import Mathlib

/-
Verification of the perception-stabilization and bilingual announcement
pipeline of the saarthi repository.

The development shallowly embeds the algorithmic core of the three source
files (the announcement scheduler with its speech queue, the OCR
convergence counter, the Otsu thresholding scan, and the median-filter
step of the binarization preprocessor) as executable Lean definitions.
JavaScript number arithmetic on histogram statistics and confidences is
modelled exactly over the rationals; Date.now timestamps are modelled as
naturals (JS computes `now - last < gap` where a negative difference and
a truncated-to-zero difference fall in the same branch, so truncated
natural subtraction is faithful here).  Components that the repository's
specification describes but that are absent from the provided sources
(the majority-vote stability window and the pinhole distance estimator)
are modelled directly from the specification text and are marked as such.
-/

namespace Saarthi

/-- Language tag of an announcement: English or Hindi. -/
inductive Lang where
  | en
  | hi
deriving DecidableEq

/-- A queued announcement: the `{ text, lang }` records pushed onto
`speechQueue.current` in `page.tsx`. -/
structure Ann where
  text : String
  lang : Lang
deriving DecidableEq

/-- The scheduler's cross-callback mutable state in `page.tsx`:
`speechQueue.current`, `isSpeaking.current`, `lastSpokenText.current`
and `lastAnnounceTime.current`. -/
structure SchedState where
  queue : List Ann
  isSpeaking : Bool
  lastSpokenText : String
  lastAnnounceTime : Nat
deriving DecidableEq

/-- Initial scheduler state: empty queue, not speaking, no last spoken
text, `lastAnnounceTime = 0`. -/
def schedInit : SchedState := ⟨[], false, "", 0⟩

/-- Outcome of one `enqueue` call: the state after the call, whether the
call returned early without touching the queue (dropped), and whether
`window.speechSynthesis.cancel()` was invoked during the call. -/
structure EnqResult where
  state : SchedState
  dropped : Bool
  cancelled : Bool

/-- The `while (speechQueue.current.length > 6) speechQueue.current.shift()`
loop of `enqueue` in `page.tsx` (line 206): repeatedly remove the head
while more than 6 items remain. -/
def shrinkQueue : List Ann → List Ann
  | [] => []
  | a :: q => if (a :: q).length > 6 then shrinkQueue q else a :: q

/-- `enqueue(text, lang, priority)` from `page.tsx` lines 191-209, with
`now` the value of `Date.now()` at the call.  Rules in source order:
empty text returns; a repeat of the last spoken text within 3000 ms
returns; a non-priority call within 1200 ms of the last announcement
returns; a priority call cancels in-flight speech and replaces the queue
with the single new item; otherwise the queue is shrunk to 6 items and
the new item is pushed. -/
def enqueue (s : SchedState) (text : String) (lang : Lang) (priority : Bool)
    (now : Nat) : EnqResult :=
  if text = "" then ⟨s, true, false⟩
  else if text = s.lastSpokenText ∧ now - s.lastAnnounceTime < 3000 then ⟨s, true, false⟩
  else if priority = false ∧ now - s.lastAnnounceTime < 1200 then ⟨s, true, false⟩
  else if priority then
    ⟨⟨[⟨text, lang⟩], false, s.lastSpokenText, now⟩, false, true⟩
  else
    ⟨⟨shrinkQueue s.queue ++ [⟨text, lang⟩], s.isSpeaking, s.lastSpokenText, now⟩, false, false⟩

/-- `processSpeechQueue` from `page.tsx` lines 166-189: if speech is in
flight, return; shift the next item off the queue (returning when it is
empty); mark speaking, record the last spoken text, and hand the
utterance to the TTS engine (the returned `Option Ann` is the utterance
handed off; `none` means no utterance was started). -/
def processSpeechQueue (s : SchedState) : SchedState × Option Ann :=
  if s.isSpeaking then (s, none)
  else
    match s.queue with
    | [] => (s, none)
    | next :: rest => (⟨rest, true, next.text, s.lastAnnounceTime⟩, some next)

/-- One item of a non-priority enqueue run: text, language and the
`Date.now()` timestamp of the call. -/
abbrev EnqItem := String × Lang × Nat

/-- The announcement an enqueue-run item turns into. -/
def toAnn (i : EnqItem) : Ann := ⟨i.1, i.2.1⟩

/-- Run a sequence of non-priority `enqueue` calls with no draining in
between (the drain is deferred through `setTimeout`, so no
`processSpeechQueue` step runs between back-to-back calls). -/
def runNP (s : SchedState) : List EnqItem → SchedState
  | [] => s
  | (tx, lg, tm) :: rest => runNP (enqueue s tx lg false tm).state rest

/-- An enqueue run is good when every call passes all drop rules: each
text is non-empty and differs from the (never changing) last spoken
text, and consecutive calls are at least 1200 ms apart (the first at
least 1200 ms after the initial `lastAnnounceTime`). -/
def goodRun (lsp : String) : Nat → List EnqItem → Bool
  | _, [] => true
  | last, (tx, _, tm) :: rest =>
    decide (tx ≠ "") && decide (tx ≠ lsp) && decide (last + 1200 ≤ tm) && goodRun lsp tm rest

/-- The `both`-language branch of `enqueueSpeakBoth` in `page.tsx` lines
214-217: `if (hi) enqueue(hi, "hi", priority)` immediately, then
`setTimeout(() => enqueue(en, "en", priority), 400)`, so the English
call runs 400 ms after the Hindi one. -/
def speakBothBoth (s : SchedState) (enText hiText : String) (priority : Bool)
    (t : Nat) : SchedState :=
  let s1 := if hiText ≠ "" then (enqueue s hiText Lang.hi priority t).state else s
  (enqueue s1 enText Lang.en priority (t + 400)).state

/-- Twelve distinct non-priority announcements fired in the same tick
(`Date.now() = 2000` for all of them). -/
def rapidItems : List EnqItem :=
  [("a1", Lang.en, 2000), ("a2", Lang.en, 2000), ("a3", Lang.en, 2000),
   ("a4", Lang.en, 2000), ("a5", Lang.en, 2000), ("a6", Lang.en, 2000),
   ("a7", Lang.en, 2000), ("a8", Lang.en, 2000), ("a9", Lang.en, 2000),
   ("a10", Lang.en, 2000), ("a11", Lang.en, 2000), ("a12", Lang.en, 2000)]

/-- The OCR convergence state of `page.tsx`: `previousTextRef.current`,
`scanCountRef.current` and `accumulatedTextRef.current`. -/
structure OcrState where
  previousText : String
  scanCount : Nat
  accumulated : String
deriving DecidableEq

/-- Outcome of one OCR pass: the updated convergence state and whether
the "page complete" stable event (the full-page read-out) fired. -/
structure OcrResult where
  state : OcrState
  fired : Bool
deriving DecidableEq

/-- The convergence-counter update of `performOCR` in `page.tsx` lines
275-291, applied to the cleaned OCR text and its confidence.  The source
guard is `if (cleanText && cleanText !== "No text detected")`; inside it,
a text that differs from the previously accepted one and is longer than
80 % of its length (`cleanText.length > previous.length * 0.8`, i.e.
`4 * previous.length < 5 * cleanText.length` exactly) is appended to the
accumulated buffer and resets the counter, otherwise the counter
increments; the page-complete event fires when `scanCount >= 3 && conf > 75`. -/
def ocrPass (s : OcrState) (cleanText : String) (conf : ℚ) : OcrResult :=
  if cleanText ≠ "" ∧ cleanText ≠ "No text detected" then
    let s' :=
      if cleanText ≠ s.previousText ∧ 4 * s.previousText.length < 5 * cleanText.length then
        OcrState.mk cleanText 0 (s.accumulated ++ " " ++ cleanText)
      else
        OcrState.mk s.previousText (s.scanCount + 1) s.accumulated
    ⟨s', decide (3 ≤ s'.scanCount) && decide ((75 : ℚ) < conf)⟩
  else ⟨s, false⟩

/-- Modelled from the spec: the sliding stability window of the
majority-vote filter (spec 4.3), absent from the provided sources.
`capacity` is W; `buf` holds the most recent payloads, oldest first. -/
structure StabilityWindow where
  capacity : Nat
  buf : List String

/-- Modelled from the spec: push the newest observation's payload into
the window, evicting from the oldest end whenever the window is over
capacity. -/
def pushObs (w : StabilityWindow) (p : String) : List String :=
  let b := w.buf ++ [p]
  b.drop (b.length - w.capacity)

/-- Ceiling of W/2 over the naturals: the majority threshold of the
corroboration rule. -/
def ceilHalf (W : Nat) : Nat := (W + 1) / 2

/-- Helper for `modeOf`: scan the remaining payloads keeping the
payload whose count in `b` is largest so far (strictly larger counts
replace the current best). -/
def modeAux (b : List String) (acc : Option String) : List String → Option String
  | [] => acc
  | p :: rest =>
    match acc with
    | none => modeAux b (some p) rest
    | some q => if b.count q < b.count p then modeAux b (some p) rest else modeAux b (some q) rest

/-- Modelled from the spec: the majority payload of the window, i.e. a
payload of maximal frequency among the payloads currently held. -/
def modeOf (b : List String) : Option String := modeAux b none b

/-- Modelled from the spec (spec 4.3, steps 1-3 and 6): `observe` pushes
the new payload, computes frequency counts, and emits a stable event
with the majority payload iff its count reaches `ceil(W/2)`; otherwise
it returns null. -/
def observe (w : StabilityWindow) (p : String) : StabilityWindow × Option String :=
  let b := pushObs w p
  let ev :=
    match modeOf b with
    | none => none
    | some q => if ceilHalf w.capacity ≤ b.count q then some q else none
  (⟨w.capacity, b⟩, ev)

/-- Modelled from the spec: the static per-class real-height table of
the distance estimator (spec 4.2), absent from the provided sources.
The spec fixes `person` at 1.7 m (through its worked example) and the
default for unknown classes at 0.4 m. -/
def knownRealHeight (label : String) : ℚ :=
  if label = "person" then 17 / 10 else 2 / 5

/-- Modelled from the spec: the pinhole-approximation distance estimator
(spec 4.2): `meters = knownRealHeight[label] * focalLengthPx / bboxHeightPx`,
returning null for a non-positive bounding-box height. -/
def estimate (label : String) (bboxHeightPx focalLengthPx : ℚ) : Option ℚ :=
  if bboxHeightPx ≤ 0 then none
  else some (knownRealHeight label * focalLengthPx / bboxHeightPx)

/-- Every fourth entry of a flat RGBA pixel array: the red channel that
`calculateOtsuThreshold` histograms (`for (let i = 0; i < data.length; i += 4)`
reads the entry at every index divisible by 4, also from a trailing
partial pixel group). -/
def every4th : List Nat → List Nat
  | [] => []
  | [a] => [a]
  | [a, _] => [a]
  | [a, _, _] => [a]
  | a :: _ :: _ :: _ :: rest => a :: every4th rest

/-- The 256-bin histogram of `calculateOtsuThreshold`: how often gray
value `v` occurs among the sampled red channels. -/
def histog (data : List Nat) (v : Nat) : Nat := (every4th data).count v

/-- The `sum` accumulator of `calculateOtsuThreshold`:
`for (let i = 0; i < 256; i++) sum += i * histogram[i]`. -/
def sumAll (hist : Nat → Nat) : Nat := ∑ i ∈ Finset.range 256, i * hist i

/-- Loop state of the Otsu scan in `calculateOtsuThreshold` (`page.tsx`
lines 64-75): the running `sumB`, `wB`, `max`, `threshold`, plus a flag
recording that the `break` on `wF === 0` was taken. -/
structure OtsuState where
  sumB : Nat
  wB : Nat
  maxVar : ℚ
  threshold : Nat
  done : Bool

/-- Initial Otsu loop state: all zero. -/
def otsuInit : OtsuState := ⟨0, 0, 0, 0, false⟩

/-- One iteration of the Otsu scan at cut point `t` (`page.tsx` lines
65-75): `wB += histogram[t]; if (wB === 0) continue; wF = total - wB;
if (wF === 0) break; sumB += t * histogram[t]; mB = sumB / wB;
mF = (sum - sumB) / wF; between = wB * wF * (mB - mF) * (mB - mF);
if (between > max) { max = between; threshold = t; }`.  The `break` is
modelled by the `done` flag that freezes the state. -/
def otsuStep (hist : Nat → Nat) (total sum : Nat) (s : OtsuState) (t : Nat) : OtsuState :=
  if s.done then s
  else
    let wB := s.wB + hist t
    if wB = 0 then { s with wB := wB }
    else
      let wF := total - wB
      if wF = 0 then { s with wB := wB, done := true }
      else
        let sumB := s.sumB + t * hist t
        let mB : ℚ := (sumB : ℚ) / (wB : ℚ)
        let mF : ℚ := ((sum : ℚ) - (sumB : ℚ)) / (wF : ℚ)
        let between : ℚ := (wB : ℚ) * (wF : ℚ) * ((mB - mF) * (mB - mF))
        if s.maxVar < between then ⟨sumB, wB, between, t, false⟩
        else { s with wB := wB, sumB := sumB }

/-- The Otsu scan after the first `n` cut points. -/
def otsuRun (hist : Nat → Nat) (total sum n : Nat) : OtsuState :=
  (List.range n).foldl (otsuStep hist total sum) otsuInit

/-- `calculateOtsuThreshold(data, width, height)` from `page.tsx` lines
58-77: histogram the red channel, set `total = width * height`, compute
`sum`, run the 256-step scan, and return the recorded threshold. -/
def calculateOtsuThreshold (data : List Nat) (width height : Nat) : Nat :=
  (otsuRun (histog data) (width * height) (sumAll (histog data)) 256).threshold

/-- Background pixel count at cut `t`: the histogram mass of bins `0..t`. -/
def wBat (hist : Nat → Nat) (t : Nat) : Nat := ∑ i ∈ Finset.range (t + 1), hist i

/-- Background intensity mass at cut `t`. -/
def sumBat (hist : Nat → Nat) (t : Nat) : Nat := ∑ i ∈ Finset.range (t + 1), i * hist i

/-- The inter-class variance `wB * wF * (mB - mF)^2` at cut `t`, exactly
over the rationals (a division by an empty class yields 0 in ℚ, and the
`wB * wF` factor is 0 there as well, so degenerate cuts score 0). -/
def betweenVar (hist : Nat → Nat) (total t : Nat) : ℚ :=
  let wB := wBat hist t
  let wF := total - wB
  let mB : ℚ := (sumBat hist t : ℚ) / (wB : ℚ)
  let mF : ℚ := ((sumAll hist : ℚ) - (sumBat hist t : ℚ)) / (wF : ℚ)
  (wB : ℚ) * (wF : ℚ) * ((mB - mF) * (mB - mF))

/-- A sample RGBA buffer of a 2-by-1 frame: pixels of gray value 10 and
200 (only every fourth entry is read by the histogram). -/
def otsuSampleData : List Nat := [10, 0, 0, 0, 200, 0, 0, 0]

/-- A grayscale image buffer: row-major single-channel pixel list (the
red channel of the RGBA canvas; the source writes identical values into
all three color channels, so one channel carries the image). -/
structure Img where
  width : Nat
  height : Nat
  px : List Nat
deriving DecidableEq

/-- Read a pixel by flat index (out-of-range reads yield 0; the interior
loops of the filter never read out of range). -/
def getPx (img : Img) (i : Nat) : Nat := img.px.getD i 0

/-- Insert into an ascending-sorted list. -/
def insertSorted (x : Nat) : List Nat → List Nat
  | [] => [x]
  | y :: ys => if x ≤ y then x :: y :: ys else y :: insertSorted x ys

/-- Ascending sort, as `neighbors.sort((a, b) => a - b)` produces. -/
def sortAsc (l : List Nat) : List Nat := l.foldr insertSorted []

/-- Sort the sample list ascending and take index 4, as
`neighbors.sort((a, b) => a - b)` followed by `neighbors[4]` does. -/
def medianOfList (l : List Nat) : Nat := (sortAsc l).getD 4 0

/-- The nine samples the source medianFilter gathers at interior pixel
(x, y) (`page.tsx` lines 110-120), translated index-for-index from the
RGBA offsets (an RGBA offset of `w*4` is one pixel row): row y-1 at
x-1, x, x+1; then `temp[idx - width]`, `temp[idx]`, `temp[idx + width]`
(which are the pixels directly above, at, and below (x, y) — the west
and east neighbors are never read); then row y+1 at x-1, x, x+1. -/
def codeNeighbors (temp : Img) (x y : Nat) : List Nat :=
  let w := temp.width
  let idx := y * w + x
  [getPx temp ((y - 1) * w + (x - 1)), getPx temp ((y - 1) * w + x),
   getPx temp ((y - 1) * w + (x + 1)),
   getPx temp (idx - w), getPx temp idx, getPx temp (idx + w),
   getPx temp ((y + 1) * w + (x - 1)), getPx temp ((y + 1) * w + x),
   getPx temp ((y + 1) * w + (x + 1))]

/-- The nine samples of a true 3-by-3 neighborhood of (x, y): the pixel
itself plus its eight neighbors, all read from `img`. -/
def trueNeighbors (img : Img) (x y : Nat) : List Nat :=
  let w := img.width
  [getPx img ((y - 1) * w + (x - 1)), getPx img ((y - 1) * w + x),
   getPx img ((y - 1) * w + (x + 1)),
   getPx img (y * w + (x - 1)), getPx img (y * w + x), getPx img (y * w + (x + 1)),
   getPx img ((y + 1) * w + (x - 1)), getPx img ((y + 1) * w + x),
   getPx img ((y + 1) * w + (x + 1))]

/-- The write phase of the source medianFilter: for every interior pixel
the computed median (of `codeNeighbors`, read from the snapshot `temp`)
is stored into the buffer `dataBuf`; all other entries of `dataBuf` are
left as they were.  Each target cell is written exactly once and all
reads come from `temp`, so an index-wise map is the loop's effect. -/
def applyCodeMedian (temp dataBuf : Img) : Img :=
  { dataBuf with
    px := (List.range dataBuf.px.length).map fun i =>
      let w := temp.width
      let x := i % w
      let y := i / w
      if 1 ≤ x ∧ x + 1 < w ∧ 1 ≤ y ∧ y + 1 < temp.height then
        medianOfList (codeNeighbors temp x y)
      else getPx dataBuf i }

/-- The whole median-filter step of `preprocessImage` (`page.tsx` lines
103-127) acting on the canvas and on the detached `data` buffer left
over from the grayscale step: `tempData = ctx.getImageData(...)` takes a
snapshot of the canvas; the loop writes medians into the outer `data`
buffer; `ctx.putImageData(tempData, 0, 0)` then stores the snapshot —
not `data` — back to the canvas.  Returns (canvas after the step,
`data` buffer after the step); the subsequent Otsu stage re-reads the
canvas. -/
def medianFilterStep (canvasImg dataBuf : Img) : Img × Img :=
  let temp := canvasImg
  let dataBuf2 := applyCodeMedian temp dataBuf
  (temp, dataBuf2)

/-- A 3-by-3 gray image whose center pixel is 100 and whose eight
neighbors are all 0: the true 9-sample median at the center is 0. -/
def medianImgA : Img := ⟨3, 3, [0, 0, 0, 0, 100, 0, 0, 0, 0]⟩

/-- A 3-by-3 gray image (rows [255, 0, 255], [255, 255, 255], [0, 0, 0])
whose true 9-sample median at the center is 255, while the source's
duplicated-north/south sample list yields 0. -/
def medianImgB : Img := ⟨3, 3, [255, 0, 255, 255, 255, 255, 0, 0, 0]⟩

/-- The loop invariant of the Otsu scan after the first `n` cut points:
`wB` is the histogram mass of bins below `n`; as long as the `break` has
not fired, `sumB` is the intensity mass of those bins; the recorded
threshold is a scanned cut (or the initial 0); `maxVar` dominates the
inter-class variance of every scanned cut and is the variance of the
recorded threshold (or still the initial 0 with threshold 0); and once
the `break` has fired, `wB` has absorbed the whole pixel total. -/
def OtsuInv (hist : Nat → Nat) (total n : Nat) (s : OtsuState) : Prop :=
  s.wB = ∑ i ∈ Finset.range n, hist i ∧
  (s.done = false → s.sumB = ∑ i ∈ Finset.range n, i * hist i) ∧
  (s.threshold = 0 ∨ s.threshold < n) ∧
  (∀ t, t < n → betweenVar hist total t ≤ s.maxVar) ∧
  (s.maxVar = betweenVar hist total s.threshold ∨ (s.maxVar = 0 ∧ s.threshold = 0)) ∧
  (s.done = true → s.wB = total)

lemma shrinkQueue_eq_drop (q : List Ann) : shrinkQueue q = q.drop (q.length - 6) := by
  induction q with
  | nil => simp [shrinkQueue]
  | cons a q ih =>
    rw [shrinkQueue]
    by_cases h : (a :: q).length > 6
    · rw [if_pos h, ih]
      simp only [List.length_cons] at h ⊢
      have h6 : q.length + 1 - 6 = (q.length - 6) + 1 := by omega
      rw [h6, List.drop_succ_cons]
    · rw [if_neg h]
      simp only [List.length_cons] at h ⊢
      have : q.length + 1 - 6 = 0 := by omega
      rw [this, List.drop_zero]

lemma shrinkQueue_length (q : List Ann) : (shrinkQueue q).length = q.length - (q.length - 6) := by
  rw [shrinkQueue_eq_drop, List.length_drop]

/-- C3: a priority `enqueue` that is not dropped by an earlier rule
(non-empty text, not a repeat of the last spoken text inside the dedup
window) cancels the in-flight speech — the TTS engine receives a cancel
call during the enqueue, before any later `processSpeechQueue` step can
hand the priority item over — clears the pending queue, and leaves the
queue holding exactly the one priority item. -/
theorem enqueue_priority_preempts (s : SchedState) (text : String) (lang : Lang)
    (now : Nat) (htext : text ≠ "")
    (hdedup : ¬(text = s.lastSpokenText ∧ now - s.lastAnnounceTime < 3000)) :
    (enqueue s text lang true now).cancelled = true ∧
    (enqueue s text lang true now).state.queue = [⟨text, lang⟩] ∧
    (enqueue s text lang true now).state.isSpeaking = false ∧
    (enqueue s text lang true now).dropped = false := by
  simp [enqueue, htext, hdedup]

/-- Witness for C3: preempting while another announcement is speaking
and two items are pending. -/
theorem enqueue_priority_preempts_witness :
    (enqueue ⟨[⟨"pending", Lang.en⟩, ⟨"older", Lang.hi⟩], true, "spoken", 1000⟩
        "urgent" Lang.en true 1100).cancelled = true ∧
    (enqueue ⟨[⟨"pending", Lang.en⟩, ⟨"older", Lang.hi⟩], true, "spoken", 1000⟩
        "urgent" Lang.en true 1100).state.queue = [⟨"urgent", Lang.en⟩] ∧
    (enqueue ⟨[⟨"pending", Lang.en⟩, ⟨"older", Lang.hi⟩], true, "spoken", 1000⟩
        "urgent" Lang.en true 1100).state.isSpeaking = false ∧
    (enqueue ⟨[⟨"pending", Lang.en⟩, ⟨"older", Lang.hi⟩], true, "spoken", 1000⟩
        "urgent" Lang.en true 1100).dropped = false :=
  enqueue_priority_preempts ⟨[⟨"pending", Lang.en⟩, ⟨"older", Lang.hi⟩], true, "spoken", 1000⟩
    "urgent" Lang.en 1100 (by decide) (by decide)

/-- C5: an `enqueue` call made less than `MIN_ANNOUNCE_GAP = 1200` ms
after the last announcement is dropped silently with the whole scheduler
state (queue, speaking flag, last spoken text) unchanged when it is
non-priority; a priority call is never dropped by the rate limit — given
it passes the earlier rules (non-empty text, not a dedup repeat) it goes
through regardless of the elapsed gap. -/
theorem enqueue_rate_limit (s : SchedState) (text : String) (lang : Lang) (now : Nat) :
    (now - s.lastAnnounceTime < 1200 →
      enqueue s text lang false now = ⟨s, true, false⟩) ∧
    (text ≠ "" → text ≠ s.lastSpokenText →
      (enqueue s text lang true now).dropped = false) := by
  constructor
  · intro hgap
    unfold enqueue
    split_ifs with h1 h2 h3
    · rfl
    · rfl
    · rfl
    all_goals exact absurd ⟨rfl, hgap⟩ h3
  · intro htext hdedup
    simp [enqueue, htext, fun h : text = s.lastSpokenText => hdedup h]

/-- Witness for C5: a non-priority call 500 ms after the last
announcement is dropped with the state unchanged, while a priority call
at the same instant is not dropped. -/
theorem enqueue_rate_limit_witness :
    enqueue ⟨[⟨"pending", Lang.en⟩], false, "spoken", 1000⟩ "hello" Lang.en false 1500 =
      ⟨⟨[⟨"pending", Lang.en⟩], false, "spoken", 1000⟩, true, false⟩ ∧
    (enqueue ⟨[⟨"pending", Lang.en⟩], false, "spoken", 1000⟩ "hello" Lang.en true 1500).dropped
      = false :=
  ⟨(enqueue_rate_limit ⟨[⟨"pending", Lang.en⟩], false, "spoken", 1000⟩ "hello" Lang.en 1500).1
      (by decide),
   (enqueue_rate_limit ⟨[⟨"pending", Lang.en⟩], false, "spoken", 1000⟩ "hello" Lang.en 1500).2
      (by decide) (by decide)⟩

/-- C10: `processSpeechQueue` called while speech is in flight, or while
the queue is empty, returns with the state untouched and starts no
utterance; and whenever it does hand an utterance to the TTS engine, the
speaking flag was previously clear, the handed item is removed from the
queue (so a queued item is dequeued and handed over at most once), the
speaking flag is set and the last spoken text records the utterance. -/
theorem processSpeechQueue_guard (s : SchedState) :
    (s.isSpeaking = true ∨ s.queue = [] → processSpeechQueue s = (s, none)) ∧
    (∀ a : Ann, (processSpeechQueue s).2 = some a →
      s.isSpeaking = false ∧
      s.queue = a :: (processSpeechQueue s).1.queue ∧
      (processSpeechQueue s).1.isSpeaking = true ∧
      (processSpeechQueue s).1.lastSpokenText = a.text) := by
  obtain ⟨q, sp, lsp, lat⟩ := s
  constructor
  · rintro (h | h)
    · simp only at h
      simp [processSpeechQueue, h]
    · simp only at h
      subst h
      cases sp <;> simp [processSpeechQueue]
  · intro a ha
    cases sp
    · cases q with
      | nil => simp [processSpeechQueue] at ha
      | cons x xs =>
        simp only [processSpeechQueue, Bool.false_eq_true, if_false, Option.some.injEq] at ha
        subst ha
        simp [processSpeechQueue]
    · simp [processSpeechQueue] at ha

/-- Witness for C10: with speech in flight and one item pending, the
call is a no-op. -/
theorem processSpeechQueue_guard_witness :
    processSpeechQueue ⟨[⟨"waiting", Lang.en⟩], true, "spoken", 0⟩ =
      (⟨[⟨"waiting", Lang.en⟩], true, "spoken", 0⟩, none) :=
  (processSpeechQueue_guard ⟨[⟨"waiting", Lang.en⟩], true, "spoken", 0⟩).1 (Or.inl rfl)

/-- C6 (code evaluated at the failing input): with language "both" and a
fresh scheduler, a non-priority bilingual event at t = 2000 ms enqueues
the Hindi phrasing, but the deferred English `enqueue` at t = 2400 ms is
silently dropped by the 1200 ms rate limiter (the Hindi call set
`lastAnnounceTime` to 2000), so the scheduler produces only one
announcement and the English phrasing never reaches the TTS engine. -/
theorem speakBoth_drops_english :
    (enqueue schedInit "botal aage hai" Lang.hi false 2000).dropped = false ∧
    (enqueue (enqueue schedInit "botal aage hai" Lang.hi false 2000).state
        "Bottle ahead" Lang.en false 2400).dropped = true ∧
    speakBothBoth schedInit "Bottle ahead" "botal aage hai" false 2000 =
      ⟨[⟨"botal aage hai", Lang.hi⟩], false, "", 2000⟩ := by
  decide

lemma runNP_queue_eq :
    ∀ (items : List EnqItem) (s : SchedState),
      goodRun s.lastSpokenText s.lastAnnounceTime items = true →
      s.queue.length ≤ 7 →
      (runNP s items).queue =
        (s.queue ++ items.map toAnn).drop (s.queue.length + items.length - 7) := by
  intro items
  induction items with
  | nil =>
    intro s _ hq
    simp only [runNP, List.map_nil, List.append_nil, List.length_nil, Nat.add_zero,
      Nat.sub_eq_zero_of_le hq, List.drop_zero]
  | cons hd tl ih =>
    obtain ⟨tx, lg, tm⟩ := hd
    intro s hgood hq
    simp only [goodRun, Bool.and_eq_true, decide_eq_true_eq] at hgood
    obtain ⟨⟨⟨htx, hlsp⟩, htm⟩, hrest⟩ := hgood
    have hgap : ¬(tm - s.lastAnnounceTime < 1200) := by omega
    have hstep : (enqueue s tx lg false tm).state =
        ⟨shrinkQueue s.queue ++ [⟨tx, lg⟩], s.isSpeaking, s.lastSpokenText, tm⟩ := by
      simp [enqueue, htx, fun h : tx = s.lastSpokenText => hlsp h, hgap]
    have hlen6 : (shrinkQueue s.queue).length ≤ 6 := by
      rw [shrinkQueue_length]; omega
    have hq7 : (enqueue s tx lg false tm).state.queue.length ≤ 7 := by
      rw [hstep]
      simp only [List.length_append, List.length_cons, List.length_nil]
      omega
    have hih := ih (enqueue s tx lg false tm).state (by rw [hstep]; exact hrest) hq7
    show (runNP (enqueue s tx lg false tm).state tl).queue = _
    rw [hih, hstep]
    simp only [List.map_cons]
    have e1 : (shrinkQueue s.queue ++ [(⟨tx, lg⟩ : Ann)]) ++ List.map toAnn tl =
        shrinkQueue s.queue ++ ((⟨tx, lg⟩ : Ann) :: List.map toAnn tl) := by
      simp
    rw [e1]
    simp only [List.length_append, List.length_cons, List.length_nil, shrinkQueue_length]
    rw [shrinkQueue_eq_drop,
      ← List.drop_append_of_le_length
        (by omega : s.queue.length - 6 ≤ s.queue.length),
      List.drop_drop]
    have e2 : toAnn (tx, lg, tm) = (⟨tx, lg⟩ : Ann) := rfl
    rw [e2]
    congr 1
    omega

/-- C4 (amended): the pending queue is bounded by capacity K = 7 — a
non-priority enqueue leaves at most 7 items; an accepted non-priority
enqueue onto a full 7-item queue evicts exactly the oldest pending item;
and after K + 5 = 12 non-priority enqueues that each pass the drop rules
(in particular, spaced at least `MIN_ANNOUNCE_GAP = 1200` ms apart) with
no draining, the queue holds exactly the 7 most recently enqueued
announcements. -/
theorem queue_bounded_evicts_oldest :
    (∀ (s : SchedState) (tx : String) (lg : Lang) (tm : Nat),
      s.queue.length ≤ 7 → (enqueue s tx lg false tm).state.queue.length ≤ 7) ∧
    (∀ (s : SchedState) (tx : String) (lg : Lang) (tm : Nat),
      tx ≠ "" → tx ≠ s.lastSpokenText → s.lastAnnounceTime + 1200 ≤ tm →
      s.queue.length = 7 →
      (enqueue s tx lg false tm).state.queue = s.queue.tail ++ [⟨tx, lg⟩]) ∧
    (∀ items : List EnqItem,
      items.length = 12 → goodRun "" 0 items = true →
      (runNP schedInit items).queue = (items.map toAnn).drop 5 ∧
      (runNP schedInit items).queue.length = 7) := by
  refine ⟨?_, ?_, ?_⟩
  · intro s tx lg tm hq
    unfold enqueue
    split_ifs
    all_goals
      first
        | exact hq
        | (simp only [List.length_append, List.length_cons, List.length_nil,
            shrinkQueue_length]
           omega)
  · intro s tx lg tm htx hlsp htm hq
    have hgap : ¬(tm - s.lastAnnounceTime < 1200) := by omega
    have hstep : (enqueue s tx lg false tm).state =
        ⟨shrinkQueue s.queue ++ [⟨tx, lg⟩], s.isSpeaking, s.lastSpokenText, tm⟩ := by
      simp [enqueue, htx, fun h : tx = s.lastSpokenText => hlsp h, hgap]
    rw [hstep]
    have htail : shrinkQueue s.queue = s.queue.tail := by
      rw [shrinkQueue_eq_drop, hq]
      exact List.drop_one s.queue
    rw [htail]
  · intro items hlen hgood
    have h := runNP_queue_eq items schedInit hgood (by simp [schedInit])
    constructor
    · rw [h, hlen]
      rfl
    · rw [h]
      simp only [schedInit, List.nil_append, List.length_nil, Nat.zero_add,
        List.length_drop, List.length_map, hlen]

/-- Witness for C4's amended statement: twelve distinct announcements
spaced exactly 1200 ms apart leave the last seven in the queue. -/
theorem queue_bounded_evicts_oldest_witness :
    (runNP schedInit
      [("b1", Lang.en, 1200), ("b2", Lang.en, 2400), ("b3", Lang.en, 3600),
       ("b4", Lang.en, 4800), ("b5", Lang.en, 6000), ("b6", Lang.en, 7200),
       ("b7", Lang.en, 8400), ("b8", Lang.en, 9600), ("b9", Lang.en, 10800),
       ("b10", Lang.en, 12000), ("b11", Lang.en, 13200), ("b12", Lang.en, 14400)]).queue =
      [⟨"b6", Lang.en⟩, ⟨"b7", Lang.en⟩, ⟨"b8", Lang.en⟩, ⟨"b9", Lang.en⟩,
       ⟨"b10", Lang.en⟩, ⟨"b11", Lang.en⟩, ⟨"b12", Lang.en⟩] := by
  have h := (queue_bounded_evicts_oldest.2.2
    [("b1", Lang.en, 1200), ("b2", Lang.en, 2400), ("b3", Lang.en, 3600),
     ("b4", Lang.en, 4800), ("b5", Lang.en, 6000), ("b6", Lang.en, 7200),
     ("b7", Lang.en, 8400), ("b8", Lang.en, 9600), ("b9", Lang.en, 10800),
     ("b10", Lang.en, 12000), ("b11", Lang.en, 13200), ("b12", Lang.en, 14400)]
    (by decide) (by decide)).1
  rw [h]
  rfl

/-- Counterexample to C4 as stated: twelve (= K + 5 for the code's
capacity K = 7) distinct non-priority announcements enqueued in rapid
succession — all in the same tick — leave a single item in the queue,
not seven: every call after the first is silently dropped by the 1200 ms
rate limiter before the bounded-queue rule is ever reached. -/
theorem queue_rapid_succession_counterexample :
    rapidItems.length = 12 ∧
    (runNP schedInit rapidItems).queue = [⟨"a1", Lang.en⟩] ∧
    (runNP schedInit rapidItems).queue.length ≠ 7 := by
  decide

/-- Counterexample to C2 as stated: the OCR pass that yields the
non-empty cleaned text "No text detected" (with previous accepted text
"abc" and counter 1) satisfies the claim's premise — the text is
non-empty, differs from the previous text and its length exceeds 80 % of
the previous length — yet the code neither appends-and-resets nor
increments: the source guard `cleanText !== "No text detected"` skips
the whole update, leaving the state unchanged. -/
theorem ocrPass_sentinel_counterexample :
    ("No text detected" ≠ "" ∧ "No text detected" ≠ "abc" ∧
      4 * String.length "abc" < 5 * String.length "No text detected") ∧
    (ocrPass ⟨"abc", 1, "abc"⟩ "No text detected" 80).state = ⟨"abc", 1, "abc"⟩ ∧
    (ocrPass ⟨"abc", 1, "abc"⟩ "No text detected" 80).state.scanCount ≠ 0 ∧
    (ocrPass ⟨"abc", 1, "abc"⟩ "No text detected" 80).state.accumulated ≠
      "abc" ++ " " ++ "No text detected" := by
  refine ⟨⟨by decide, by decide, by decide⟩, ?_, ?_, ?_⟩ <;>
    simp [ocrPass]

/-- C2 (amended): on each OCR pass yielding non-empty cleaned text other
than the literal sentinel "No text detected": if the text differs from
the previously accepted text and its length exceeds 80 % of the previous
length, it is appended to the accumulated buffer and the counter resets
to 0, otherwise the counter increments; the page-complete event fires
exactly when the updated counter has reached 3 and the confidence
exceeds 75; hence from any state with counter 0 (as left by an accepted
scan), three consecutive passes repeating the accepted text at
confidence 80 fire the event on the third pass and not before. -/
theorem ocrPass_convergence :
    (∀ (s : OcrState) (txt : String) (conf : ℚ),
      txt ≠ "" → txt ≠ "No text detected" →
      (txt ≠ s.previousText ∧ 4 * s.previousText.length < 5 * txt.length →
        (ocrPass s txt conf).state = ⟨txt, 0, s.accumulated ++ " " ++ txt⟩) ∧
      (¬(txt ≠ s.previousText ∧ 4 * s.previousText.length < 5 * txt.length) →
        (ocrPass s txt conf).state = ⟨s.previousText, s.scanCount + 1, s.accumulated⟩) ∧
      (ocrPass s txt conf).fired =
        (decide (3 ≤ (ocrPass s txt conf).state.scanCount) && decide ((75 : ℚ) < conf))) ∧
    (∀ s : OcrState, s.scanCount = 0 →
      s.previousText ≠ "" → s.previousText ≠ "No text detected" →
      (ocrPass s s.previousText 80).fired = false ∧
      (ocrPass (ocrPass s s.previousText 80).state s.previousText 80).fired = false ∧
      (ocrPass (ocrPass (ocrPass s s.previousText 80).state
        s.previousText 80).state s.previousText 80).fired = true) := by
  have hstep : ∀ (s : OcrState) (conf : ℚ),
      s.previousText ≠ "" → s.previousText ≠ "No text detected" →
      ocrPass s s.previousText conf =
        ⟨⟨s.previousText, s.scanCount + 1, s.accumulated⟩,
          decide (3 ≤ s.scanCount + 1) && decide ((75 : ℚ) < conf)⟩ := by
    intro s conf h1 h2
    simp [ocrPass, h1, h2]
  constructor
  · intro s txt conf h1 h2
    refine ⟨?_, ?_, ?_⟩
    · intro hcond
      simp [ocrPass, h1, h2, hcond.1, hcond.2]
    · intro hcond
      simp only [ocrPass, if_pos (And.intro h1 h2), if_neg hcond]
    · simp only [ocrPass]
      split_ifs with hguard hcond
      · simp
      · simp
      · exact absurd ⟨h1, h2⟩ hguard
  · intro s h0 h1 h2
    rw [hstep s 80 h1 h2]
    simp only [h0]
    rw [hstep ⟨s.previousText, 0 + 1, s.accumulated⟩ 80 h1 h2]
    rw [hstep ⟨s.previousText, 0 + 1 + 1, s.accumulated⟩ 80 h1 h2]
    refine ⟨by simp, by simp, ?_⟩
    rw [show ((⟨⟨s.previousText, 0 + 1 + 1 + 1, s.accumulated⟩,
      decide (3 ≤ 0 + 1 + 1 + 1) && decide ((75 : ℚ) < 80)⟩ : OcrResult).fired =
      (decide (3 ≤ 0 + 1 + 1 + 1) && decide ((75 : ℚ) < 80))) from rfl,
      Bool.and_eq_true, decide_eq_true_eq, decide_eq_true_eq]
    exact ⟨by norm_num, by norm_num⟩

/-- Witness for C2's amended statement: three repeats of the accepted
text "hello page" at confidence 80 fire the page-complete event on the
third pass only. -/
theorem ocrPass_convergence_witness :
    (ocrPass ⟨"hello page", 0, "hello page"⟩ "hello page" 80).fired = false ∧
    (ocrPass (ocrPass ⟨"hello page", 0, "hello page"⟩ "hello page" 80).state
      "hello page" 80).fired = false ∧
    (ocrPass (ocrPass (ocrPass ⟨"hello page", 0, "hello page"⟩ "hello page" 80).state
      "hello page" 80).state "hello page" 80).fired = true :=
  ocrPass_convergence.2 ⟨"hello page", 0, "hello page"⟩ rfl (by decide) (by decide)

lemma modeAux_mem (b : List String) :
    ∀ (l : List String) (acc : Option String) (q : String),
      modeAux b acc l = some q → acc = some q ∨ q ∈ l := by
  intro l
  induction l with
  | nil => intro acc q h; exact Or.inl h
  | cons p rest ih =>
    intro acc q h
    match acc with
    | none =>
      rcases ih (some p) q h with h' | h'
      · exact Or.inr (by simp [Option.some.injEq] at h'; simp [h'])
      · exact Or.inr (List.mem_cons_of_mem p h')
    | some r =>
      rw [modeAux] at h
      split_ifs at h with hc
      · rcases ih (some p) q h with h' | h'
        · exact Or.inr (by simp [Option.some.injEq] at h'; simp [h'])
        · exact Or.inr (List.mem_cons_of_mem p h')
      · rcases ih (some r) q h with h' | h'
        · exact Or.inl h'
        · exact Or.inr (List.mem_cons_of_mem p h')

lemma modeAux_max (b : List String) :
    ∀ (l : List String) (acc : Option String) (q : String),
      modeAux b acc l = some q →
      (∀ p ∈ l, b.count p ≤ b.count q) ∧
      (∀ r, acc = some r → b.count r ≤ b.count q) := by
  intro l
  induction l with
  | nil =>
    intro acc q h
    refine ⟨by simp, ?_⟩
    intro r hr
    have hq : acc = some q := h
    rw [hq] at hr
    cases hr
    exact le_refl _
  | cons p rest ih =>
    intro acc q h
    match acc with
    | none =>
      have h' := ih (some p) q h
      refine ⟨?_, by simp⟩
      intro x hx
      rcases List.mem_cons.mp hx with hx | hx
      · subst hx; exact h'.2 x rfl
      · exact h'.1 x hx
    | some r =>
      rw [modeAux] at h
      split_ifs at h with hc
      · have h' := ih (some p) q h
        refine ⟨?_, ?_⟩
        · intro x hx
          rcases List.mem_cons.mp hx with hx | hx
          · subst hx; exact h'.2 x rfl
          · exact h'.1 x hx
        · intro x hx
          cases hx
          exact le_trans (le_of_lt hc) (h'.2 p rfl)
      · have h' := ih (some r) q h
        refine ⟨?_, ?_⟩
        · intro x hx
          rcases List.mem_cons.mp hx with hx | hx
          · subst hx; exact le_trans (not_lt.mp hc) (h'.2 r rfl)
          · exact h'.1 x hx
        · exact h'.2

lemma modeAux_isSome (b : List String) :
    ∀ (l : List String) (r : String), ∃ q, modeAux b (some r) l = some q := by
  intro l
  induction l with
  | nil => intro r; exact ⟨r, rfl⟩
  | cons p rest ih =>
    intro r
    rw [modeAux]
    split_ifs with hc
    · exact ih p
    · exact ih r

lemma modeOf_spec (b : List String) :
    ∀ q, modeOf b = some q → q ∈ b ∧ ∀ p ∈ b, b.count p ≤ b.count q := by
  intro q h
  unfold modeOf at h
  constructor
  · rcases modeAux_mem b b none q h with h' | h'
    · cases h'
    · exact h'
  · exact (modeAux_max b b none q h).1

lemma modeOf_ne_nil (b : List String) (hb : b ≠ []) : ∃ q, modeOf b = some q := by
  match b, hb with
  | p :: rest, _ =>
    unfold modeOf
    rw [show modeAux (p :: rest) none (p :: rest) =
      modeAux (p :: rest) (some p) rest from rfl]
    exact modeAux_isSome (p :: rest) rest p

/-- C1: `observe` pushes the newest payload (evicting from the oldest
end when over capacity), and its stable-event output satisfies the
corroboration rule over the resulting window of the W most recent
payloads: any emitted payload occurs at least `ceil(W/2)` times in it;
whenever some payload reaches `ceil(W/2)` occurrences a stable event
carrying such a payload is emitted; and when no payload reaches the
majority count, `observe` returns null. -/
theorem observe_majority (w : StabilityWindow) (p : String) :
    ((observe w p).1.buf = (w.buf ++ [p]).drop ((w.buf ++ [p]).length - w.capacity)) ∧
    (∀ q, (observe w p).2 = some q →
      q ∈ pushObs w p ∧ ceilHalf w.capacity ≤ (pushObs w p).count q) ∧
    ((∃ q ∈ pushObs w p, ceilHalf w.capacity ≤ (pushObs w p).count q) →
      ∃ q, (observe w p).2 = some q ∧ ceilHalf w.capacity ≤ (pushObs w p).count q) ∧
    ((∀ q ∈ pushObs w p, (pushObs w p).count q < ceilHalf w.capacity) →
      (observe w p).2 = none) := by
  refine ⟨rfl, ?_, ?_, ?_⟩
  · intro q h
    simp only [observe] at h
    cases hm : modeOf (pushObs w p) with
    | none => rw [hm] at h; cases h
    | some m =>
      rw [hm] at h
      have h' : (if ceilHalf w.capacity ≤ List.count m (pushObs w p) then some m
          else none) = some q := h
      split_ifs at h' with hc
      · cases h'
        exact ⟨(modeOf_spec _ _ hm).1, hc⟩
  · rintro ⟨q, hq, hcount⟩
    have hne : pushObs w p ≠ [] := List.ne_nil_of_mem hq
    obtain ⟨m, hm⟩ := modeOf_ne_nil _ hne
    have hmax := (modeOf_spec _ _ hm).2 q hq
    have hc : ceilHalf w.capacity ≤ (pushObs w p).count m := le_trans hcount hmax
    refine ⟨m, ?_, hc⟩
    simp only [observe, hm, if_pos hc]
  · intro hall
    simp only [observe]
    cases hm : modeOf (pushObs w p) with
    | none => rfl
    | some m =>
      have hmem := (modeOf_spec _ _ hm).1
      have hne : (if ceilHalf w.capacity ≤ List.count m (pushObs w p) then some m
          else none) = (none : Option String) := if_neg (not_le.mpr (hall m hmem))
      exact hne

/-- Witness for C1: with W = 4 and window [cat, cat, dog], observing a
final cat yields a window [cat, cat, dog, cat] whose majority payload
reaches `ceil(4/2) = 2`, so a stable event is emitted. -/
theorem observe_majority_witness :
    ∃ q, (observe ⟨4, ["cat", "cat", "dog"]⟩ "cat").2 = some q ∧
      ceilHalf 4 ≤ (pushObs ⟨4, ["cat", "cat", "dog"]⟩ "cat").count q :=
  (observe_majority ⟨4, ["cat", "cat", "dog"]⟩ "cat").2.2.1
    ⟨"cat", by decide, by decide⟩

/-- C7: the distance estimator returns exactly
`knownRealHeight[label] * focalLengthPx / bboxHeightPx` meters for every
positive bounding-box height, with the height table defaulting to 0.4 m
for labels other than the known classes; `estimate("person", 170, 700)`
is exactly 7 meters; and every non-positive box height yields null
rather than an error. -/
theorem estimate_spec :
    (∀ (label : String) (bboxH focalPx : ℚ), 0 < bboxH →
      estimate label bboxH focalPx = some (knownRealHeight label * focalPx / bboxH)) ∧
    (∀ label : String, label ≠ "person" → knownRealHeight label = 2 / 5) ∧
    estimate "person" 170 700 = some 7 ∧
    (∀ (label : String) (bboxH focalPx : ℚ), bboxH ≤ 0 →
      estimate label bboxH focalPx = none) := by
  refine ⟨?_, ?_, ?_, ?_⟩
  · intro label bboxH focalPx h
    rw [estimate, if_neg (not_le.mpr h)]
  · intro label h
    rw [knownRealHeight, if_neg h]
  · rw [estimate, if_neg (by norm_num), knownRealHeight, if_pos rfl]
    norm_num
  · intro label bboxH focalPx h
    rw [estimate, if_pos h]

/-- Witness for C7: the worked example of the spec, 170 px box height
and 700 px focal length for a person. -/
theorem estimate_spec_witness :
    estimate "person" 170 700 = some (knownRealHeight "person" * 700 / 170) ∧
    estimate "person" 0 700 = none :=
  ⟨estimate_spec.1 "person" 170 700 (by norm_num),
   estimate_spec.2.2.2 "person" 0 700 (by norm_num)⟩

lemma betweenVar_eq (hist : Nat → Nat) (total t : Nat) :
    betweenVar hist total t =
      (wBat hist t : ℚ) * ((total - wBat hist t : Nat) : ℚ) *
        (((sumBat hist t : ℚ) / (wBat hist t : ℚ) -
            ((sumAll hist : ℚ) - (sumBat hist t : ℚ)) / ((total - wBat hist t : Nat) : ℚ)) *
         ((sumBat hist t : ℚ) / (wBat hist t : ℚ) -
            ((sumAll hist : ℚ) - (sumBat hist t : ℚ)) / ((total - wBat hist t : Nat) : ℚ))) :=
  rfl

lemma betweenVar_nonneg (hist : Nat → Nat) (total t : Nat) :
    0 ≤ betweenVar hist total t := by
  rw [betweenVar_eq]
  exact mul_nonneg (mul_nonneg (Nat.cast_nonneg _) (Nat.cast_nonneg _)) (mul_self_nonneg _)

lemma betweenVar_of_wB_zero (hist : Nat → Nat) (total t : Nat)
    (h : wBat hist t = 0) : betweenVar hist total t = 0 := by
  rw [betweenVar_eq, h]
  push_cast
  ring

lemma betweenVar_of_wF_zero (hist : Nat → Nat) (total t : Nat)
    (h : total - wBat hist t = 0) : betweenVar hist total t = 0 := by
  rw [betweenVar_eq, h]
  push_cast
  ring

lemma otsuStep_inv (hist : Nat → Nat) (total : Nat)
    (htot : total = ∑ i ∈ Finset.range 256, hist i)
    (n : Nat) (hn : n < 256) (s : OtsuState)
    (hs : OtsuInv hist total n s) :
    OtsuInv hist total (n + 1) (otsuStep hist total (sumAll hist) s n) := by
  obtain ⟨h1, h2, h3, h4, h5, h6⟩ := hs
  have hmax0 : 0 ≤ s.maxVar := by
    rcases h5 with h | h
    · rw [h]; exact betweenVar_nonneg _ _ _
    · rw [h.1]
  have hpref : ∀ m, m ≤ 256 → ∑ i ∈ Finset.range m, hist i ≤ total := by
    intro m hm
    rw [htot]
    exact Finset.sum_le_sum_of_subset (Finset.range_subset.mpr hm)
  have h3' : s.threshold = 0 ∨ s.threshold < n + 1 := by
    rcases h3 with h | h
    · exact Or.inl h
    · exact Or.inr (by omega)
  by_cases hdone : s.done = true
  · -- the break already fired: the step is the identity
    have hstep : otsuStep hist total (sumAll hist) s n = s := by
      unfold otsuStep
      rw [if_pos hdone]
    rw [hstep]
    have hwBtot : s.wB = total := h6 hdone
    have hsum_n : ∑ i ∈ Finset.range n, hist i = total := by rw [← h1, hwBtot]
    have hhist_n : hist n = 0 := by
      have hle := hpref (n + 1) (by omega)
      rw [Finset.sum_range_succ, hsum_n] at hle
      omega
    refine ⟨?_, ?_, h3', ?_, h5, fun _ => hwBtot⟩
    · rw [Finset.sum_range_succ, hhist_n, Nat.add_zero]
      exact h1
    · intro hdf
      rw [Finset.sum_range_succ, hhist_n, Nat.mul_zero, Nat.add_zero]
      exact h2 hdf
    · intro t ht
      rcases Nat.lt_succ_iff_lt_or_eq.mp ht with ht' | ht'
      · exact h4 t ht'
      · subst ht'
        have hwf : total - wBat hist t = 0 := by
          rw [wBat, Finset.sum_range_succ, hsum_n, hhist_n]
          omega
        rw [betweenVar_of_wF_zero hist total t hwf]
        exact hmax0
  · have hdf : s.done = false := by
      cases hb : s.done
      · rfl
      · exact absurd hb hdone
    by_cases hz : s.wB + hist n = 0
    · -- wB is still zero: the continue branch
      have hstep : otsuStep hist total (sumAll hist) s n = { s with wB := s.wB + hist n } := by
        unfold otsuStep
        rw [if_neg hdone, if_pos hz]
      rw [hstep]
      have hhist_n : hist n = 0 := by omega
      refine ⟨?_, ?_, h3', ?_, h5, ?_⟩
      · show s.wB + hist n = _
        rw [Finset.sum_range_succ, h1]
      · intro _
        show s.sumB = _
        rw [Finset.sum_range_succ, hhist_n, Nat.mul_zero, Nat.add_zero]
        exact h2 hdf
      · intro t ht
        rcases Nat.lt_succ_iff_lt_or_eq.mp ht with ht' | ht'
        · exact h4 t ht'
        · subst ht'
          have hwb : wBat hist t = 0 := by
            rw [wBat, Finset.sum_range_succ, ← h1]
            exact hz
          rw [betweenVar_of_wB_zero hist total t hwb]
          exact hmax0
      · intro hcontra
        exact absurd (hdf ▸ hcontra) (by simp)
    · rw [← Ne, ← Nat.pos_iff_ne_zero] at hz
      have hwB' : s.wB + hist n = wBat hist n := by
        rw [wBat, Finset.sum_range_succ, h1]
      by_cases hwf : total - (s.wB + hist n) = 0
      · -- one class would be empty at every remaining cut: the break branch
        have hstep : otsuStep hist total (sumAll hist) s n =
            { s with wB := s.wB + hist n, done := true } := by
          unfold otsuStep
          rw [if_neg hdone, if_neg (by omega), if_pos hwf]
        rw [hstep]
        have hwBtot : s.wB + hist n = total := by
          have hle := hpref (n + 1) (by omega)
          have hsum : s.wB + hist n = ∑ i ∈ Finset.range (n + 1), hist i := by
            rw [Finset.sum_range_succ, h1]
          omega
        refine ⟨?_, ?_, h3', ?_, h5, fun _ => hwBtot⟩
        · show s.wB + hist n = _
          rw [Finset.sum_range_succ, h1]
        · intro hcontra
          exact absurd hcontra (by simp)
        · intro t ht
          rcases Nat.lt_succ_iff_lt_or_eq.mp ht with ht' | ht'
          · exact h4 t ht'
          · subst ht'
            have hwf' : total - wBat hist t = 0 := by
              rw [← hwB']
              exact hwf
            rw [betweenVar_of_wF_zero hist total t hwf']
            exact hmax0
      · -- both classes are non-empty: compute the variance at cut n
        have hsB' : s.sumB + n * hist n = sumBat hist n := by
          rw [sumBat, Finset.sum_range_succ, h2 hdf]
        have hstep : otsuStep hist total (sumAll hist) s n =
            (if s.maxVar < betweenVar hist total n then
              ⟨sumBat hist n, wBat hist n, betweenVar hist total n, n, false⟩
            else { s with wB := wBat hist n, sumB := sumBat hist n }) := by
          unfold otsuStep
          rw [if_neg hdone, if_neg (by omega : ¬(s.wB + hist n = 0)), if_neg hwf]
          rw [show s.wB + hist n = wBat hist n from hwB',
            show s.sumB + n * hist n = sumBat hist n from hsB']
          rfl
        rw [hstep]
        by_cases hlt : s.maxVar < betweenVar hist total n
        · rw [if_pos hlt]
          refine ⟨rfl, fun _ => rfl, Or.inr (Nat.lt_succ_self n), ?_, Or.inl rfl, ?_⟩
          · intro t ht
            rcases Nat.lt_succ_iff_lt_or_eq.mp ht with ht' | ht'
            · exact le_trans (h4 t ht') (le_of_lt hlt)
            · subst ht'
              exact le_refl _
          · intro hcontra
            exact absurd hcontra (by simp)
        · rw [if_neg hlt]
          refine ⟨rfl, fun _ => rfl, h3', ?_, h5, ?_⟩
          · intro t ht
            rcases Nat.lt_succ_iff_lt_or_eq.mp ht with ht' | ht'
            · exact h4 t ht'
            · subst ht'
              exact not_lt.mp hlt
          · intro hcontra
            exact absurd (hdf ▸ hcontra) (by simp)

lemma otsuRun_succ (hist : Nat → Nat) (total sum n : Nat) :
    otsuRun hist total sum (n + 1) =
      otsuStep hist total sum (otsuRun hist total sum n) n := by
  unfold otsuRun
  rw [List.range_succ, List.foldl_append, List.foldl_cons, List.foldl_nil]

lemma otsuRun_inv (hist : Nat → Nat) (total : Nat)
    (htot : total = ∑ i ∈ Finset.range 256, hist i) :
    ∀ n, n ≤ 256 → OtsuInv hist total n (otsuRun hist total (sumAll hist) n) := by
  intro n
  induction n with
  | zero =>
    intro _
    refine ⟨rfl, fun _ => rfl, Or.inl rfl, ?_, Or.inr ⟨rfl, rfl⟩, ?_⟩
    · intro t ht
      exact absurd ht (Nat.not_lt_zero t)
    · intro hcontra
      exact absurd hcontra (by simp [otsuRun, otsuInit])
  | succ n ih =>
    intro hn
    rw [otsuRun_succ]
    exact otsuStep_inv hist total htot n (by omega) _ (ih (by omega))

lemma otsuStep_threshold (hist : Nat → Nat) (total sum : Nat) (s : OtsuState) (n : Nat) :
    (otsuStep hist total sum s n).threshold = s.threshold ∨
    (otsuStep hist total sum s n).threshold = n := by
  by_cases hdone : s.done = true
  · left
    have hstep : otsuStep hist total sum s n = s := by
      unfold otsuStep
      rw [if_pos hdone]
    rw [hstep]
  · by_cases hz : s.wB + hist n = 0
    · left
      have hstep : otsuStep hist total sum s n = { s with wB := s.wB + hist n } := by
        unfold otsuStep
        rw [if_neg hdone, if_pos hz]
      rw [hstep]
    · by_cases hwf : total - (s.wB + hist n) = 0
      · left
        have hstep : otsuStep hist total sum s n =
            { s with wB := s.wB + hist n, done := true } := by
          unfold otsuStep
          rw [if_neg hdone, if_neg hz, if_pos hwf]
        rw [hstep]
      · set B : ℚ := ((s.wB + hist n : Nat) : ℚ) * ((total - (s.wB + hist n) : Nat) : ℚ) *
          ((((s.sumB + n * hist n : Nat) : ℚ) / ((s.wB + hist n : Nat) : ℚ) -
              ((sum : ℚ) - ((s.sumB + n * hist n : Nat) : ℚ)) /
                ((total - (s.wB + hist n) : Nat) : ℚ)) *
           (((s.sumB + n * hist n : Nat) : ℚ) / ((s.wB + hist n : Nat) : ℚ) -
              ((sum : ℚ) - ((s.sumB + n * hist n : Nat) : ℚ)) /
                ((total - (s.wB + hist n) : Nat) : ℚ))) with hB
        have hstep : otsuStep hist total sum s n =
            (if s.maxVar < B then ⟨s.sumB + n * hist n, s.wB + hist n, B, n, false⟩
             else { s with wB := s.wB + hist n, sumB := s.sumB + n * hist n }) := by
          unfold otsuStep
          rw [if_neg hdone, if_neg hz, if_neg hwf]
        rw [hstep]
        by_cases hlt : s.maxVar < B
        · rw [if_pos hlt]
          right
          rfl
        · rw [if_neg hlt]
          left
          rfl

lemma otsuRun_threshold (hist : Nat → Nat) (total sum : Nat) :
    ∀ n, (otsuRun hist total sum n).threshold = 0 ∨
      (otsuRun hist total sum n).threshold < n := by
  intro n
  induction n with
  | zero => exact Or.inl rfl
  | succ n ih =>
    rw [otsuRun_succ]
    rcases otsuStep_threshold hist total sum (otsuRun hist total sum n) n with h | h <;>
      rw [h] <;> omega

/-- C8: `calculateOtsuThreshold` is a pure function of its pixel data —
two calls on the same data give the same threshold; the returned
threshold lies in [0, 255]; and (for data whose 256-bin histogram mass
matches `width * height`, as every RGBA frame satisfies) the returned
cut maximizes the inter-class variance `wB * wF * (mB - mF)^2` over all
256 candidate cut points, the variance being computed exactly over ℚ. -/
theorem calculateOtsuThreshold_spec (data : List Nat) (width height : Nat) :
    calculateOtsuThreshold data width height = calculateOtsuThreshold data width height ∧
    calculateOtsuThreshold data width height ≤ 255 ∧
    (width * height = ∑ i ∈ Finset.range 256, histog data i →
      ∀ t, t ≤ 255 →
        betweenVar (histog data) (width * height) t ≤
          betweenVar (histog data) (width * height) (calculateOtsuThreshold data width height)) := by
  refine ⟨rfl, ?_, ?_⟩
  · have h := otsuRun_threshold (histog data) (width * height) (sumAll (histog data)) 256
    unfold calculateOtsuThreshold
    omega
  · intro htot t ht
    have hinv := otsuRun_inv (histog data) (width * height) htot 256 (le_refl 256)
    obtain ⟨_, _, _, h4, h5, _⟩ := hinv
    have hle := h4 t (by omega)
    rcases h5 with h | h
    · unfold calculateOtsuThreshold
      rw [← h]
      exact hle
    · rw [h.1] at hle
      unfold calculateOtsuThreshold
      exact le_trans hle (betweenVar_nonneg _ _ _)

set_option maxRecDepth 8000 in
/-- Witness for C8: a 2-by-1 frame with gray values 10 and 200; its
histogram mass is 2 = width * height, and the computed threshold
dominates the inter-class variance of every cut. -/
theorem calculateOtsuThreshold_spec_witness :
    ∀ t, t ≤ 255 →
      betweenVar (histog otsuSampleData) (2 * 1) t ≤
        betweenVar (histog otsuSampleData) (2 * 1)
          (calculateOtsuThreshold otsuSampleData 2 1) :=
  (calculateOtsuThreshold_spec otsuSampleData 2 1).2.2 (by decide)

/-- C9 (code evaluated at the failing input): the median-filter step
never changes the canvas — its writes land in the detached buffer left
over from the grayscale stage and `putImageData(tempData)` stores the
untouched snapshot back — so after the step the interior pixel (1, 1) of
a 3-by-3 image with center 100 and neighbors 0 still reads 100, while
the 9-sample median of its pre-filter neighborhood is 0; in addition the
gathered sample list itself is wrong: it reads the north and south
neighbors twice and never reads west or east, so on a second image its
"median" is 0 where the true 9-sample median is 255. -/
theorem medianFilter_discards_output :
    (∀ canvasImg dataBuf : Img, (medianFilterStep canvasImg dataBuf).1 = canvasImg) ∧
    (getPx (medianFilterStep medianImgA medianImgA).1 (1 * 3 + 1) = 100 ∧
      medianOfList (trueNeighbors medianImgA 1 1) = 0) ∧
    (medianOfList (codeNeighbors medianImgB 1 1) = 0 ∧
      medianOfList (trueNeighbors medianImgB 1 1) = 255) := by
  exact ⟨fun c d => rfl, by decide, by decide⟩

end Saarthi
